import Mathlib

/-!
Verification of the WarGames map visualization engine (C++ and web front ends).

The definitions below are shallow embeddings of the animation / geometry core:
machine floating-point values are modelled as rationals (`ℚ`), entity state
machines as explicit state-passing functions, and the per-frame loops as `List`
folds over delta-time sequences.  Names follow the source: the `Cpp` namespace
embeds `wargames_cpp` (SDL/OpenGL front end), the `Web` namespace embeds
`wargames_web` (WebGL front end); shared geometry helpers keep their source
names (`lonlat_to_xy`, `splitAtAntimeridian`, ...).
-/

/-- Screen dimensions from Common.hpp (`SCREEN_WIDTH`). -/
def SCREEN_WIDTH : ℚ := 1920

/-- Screen dimensions from Common.hpp (`SCREEN_HEIGHT`). -/
def SCREEN_HEIGHT : ℚ := 1080

/-- 2D screen point, from `struct Point` in Common.hpp. -/
structure Point where
  x : ℚ
  y : ℚ
deriving DecidableEq, Repr

/-- Geographic coordinate, from `struct LatLon` in Common.hpp. -/
structure LatLon where
  lat : ℚ
  lon : ℚ
deriving DecidableEq, Repr

/-- RGBA color, from `struct Color` in Common.hpp. -/
structure Color where
  r : ℚ
  g : ℚ
  b : ℚ
  a : ℚ
deriving DecidableEq, Repr

/-- Global equirectangular projection `lonlat_to_xy` from Common.hpp:
`x = (lon+180)/360*width`, `y = (90-lat)/180*height`. -/
def lonlat_to_xy (lon lat width height : ℚ) : Point :=
  ⟨(lon + 180) / 360 * width, (90 - lat) / 180 * height⟩

namespace Cpp

/-- C++ missile state: `m_progress` and `m_duration` (Missile.hpp). -/
structure Missile where
  progress : ℚ
  duration : ℚ
deriving DecidableEq, Repr

/-- `Missile::update` (VectorMap.cpp): `m_progress += dt / m_duration;
if (m_progress > 1.0f) m_progress = 1.0f;` -/
def Missile.update (m : Missile) (dt : ℚ) : Missile :=
  let p := m.progress + dt / m.duration
  if 1 < p then ⟨1, m.duration⟩ else ⟨p, m.duration⟩

/-- `Missile::isFinished` (Missile.hpp): `m_progress >= 1.0f`. -/
def Missile.isFinished (m : Missile) : Bool := 1 ≤ m.progress

/-- Progress trace of a C++ missile over a delta-time sequence: the state after
each update, starting from a given state (the constructor sets progress 0). -/
def Missile.states (m : Missile) (dts : List ℚ) : List Missile :=
  dts.scanl Missile.update m

/-- `Aircraft::update` (main.cpp): early-out when the loop duration is
non-positive or the path is empty; otherwise `m_progress += dt / m_duration;
if (m_progress >= 1.0f) m_progress -= std::floor(m_progress);` -/
def Aircraft.update (duration progress : ℚ) (pathLen : ℕ) (dt : ℚ) : ℚ :=
  if duration ≤ 0 ∨ pathLen = 0 then progress
  else
    let p := progress + dt / duration
    if 1 ≤ p then p - ⌊p⌋ else p

end Cpp

namespace Web

/-- Web missile state: `progress`, `duration`, `finished` flag and the
`exploded` flag set by `SimulationState.update` (Missile.js / SimulationState.js). -/
structure Missile where
  progress : ℚ
  duration : ℚ
  finished : Bool
  exploded : Bool
deriving DecidableEq, Repr

/-- `Missile.update` (Missile.js): `if (this.finished) return;
this.progress += deltaTime / this.duration;
if (this.progress >= 1.0) { this.progress = 1.0; this.finished = true; }` -/
def Missile.update (m : Missile) (dt : ℚ) : Missile :=
  if m.finished then m
  else if 1 ≤ m.progress + dt / m.duration then { m with progress := 1, finished := true }
  else { m with progress := m.progress + dt / m.duration }

/-- Web missile state trace over a delta-time sequence. -/
def Missile.states (m : Missile) (dts : List ℚ) : List Missile :=
  dts.scanl Missile.update m

end Web

/- ### Helper lemmas for missile progress traces -/

theorem cpp_missile_step_bounds {m : Cpp.Missile} {dt : ℚ}
    (hd : 0 < m.duration) (hdt : 0 ≤ dt) (h0 : 0 ≤ m.progress) (h1 : m.progress ≤ 1) :
    m.progress ≤ (m.update dt).progress ∧ 0 ≤ (m.update dt).progress ∧
      (m.update dt).progress ≤ 1 ∧ (m.update dt).duration = m.duration := by
  have hq : 0 ≤ dt / m.duration := div_nonneg hdt hd.le
  unfold Cpp.Missile.update
  by_cases hc : 1 < m.progress + dt / m.duration
  · simp only [hc, if_pos]
    exact ⟨h1, by norm_num, le_refl 1, by trivial⟩
  · simp only [hc, if_neg, if_false]
    push_neg at hc
    exact ⟨le_add_of_nonneg_right hq, add_nonneg h0 hq, hc, by trivial⟩

theorem cpp_missile_states_invariant (dts : List ℚ) (hdts : ∀ x ∈ dts, 0 ≤ x)
    (m : Cpp.Missile) (hd : 0 < m.duration) (h0 : 0 ≤ m.progress) (h1 : m.progress ≤ 1) :
    (∀ s ∈ m.states dts, 0 ≤ s.progress ∧ s.progress ≤ 1 ∧ s.duration = m.duration) ∧
      List.Chain' (fun a b : Cpp.Missile => a.progress ≤ b.progress) (m.states dts) := by
  induction dts generalizing m with
  | nil =>
    simp only [Cpp.Missile.states, List.scanl_nil]
    exact ⟨by rintro s hs; simp only [List.mem_singleton] at hs; subst hs; exact ⟨h0, h1, rfl⟩,
      List.chain'_singleton _⟩
  | cons dt dts ih =>
    have hdt : 0 ≤ dt := hdts dt (by simp)
    have hstep := cpp_missile_step_bounds hd hdt h0 h1
    have hd' : 0 < (m.update dt).duration := hstep.2.2.2 ▸ hd
    have ihh := ih (fun x hx => hdts x (by simp [hx])) (m.update dt) hd'
      hstep.2.1 hstep.2.2.1
    simp only [Cpp.Missile.states, List.scanl_cons, List.singleton_append] at *
    constructor
    · rintro s hs
      rcases List.mem_cons.mp hs with rfl | hs'
      · exact ⟨h0, h1, rfl⟩
      · have := ihh.1 s hs'
        exact ⟨this.1, this.2.1, hstep.2.2.2 ▸ this.2.2⟩
    · refine List.chain'_cons'.mpr ⟨?_, ihh.2⟩
      intro y hy
      simp only [List.head?_eq_getElem?, List.nil_append, List.getElem?_scanl_zero,
        Option.mem_def, Option.some.injEq] at hy
      subst hy
      exact hstep.1

theorem web_missile_step_bounds {m : Web.Missile} {dt : ℚ}
    (hd : 0 < m.duration) (hdt : 0 ≤ dt) (h0 : 0 ≤ m.progress) (h1 : m.progress ≤ 1)
    (hf : m.finished = true ↔ m.progress = 1) :
    m.progress ≤ (m.update dt).progress ∧ 0 ≤ (m.update dt).progress ∧
      (m.update dt).progress ≤ 1 ∧
      ((m.update dt).finished = true ↔ (m.update dt).progress = 1) ∧
      (m.update dt).duration = m.duration := by
  have hq : 0 ≤ dt / m.duration := div_nonneg hdt hd.le
  unfold Web.Missile.update
  split_ifs with hfin hc
  · exact ⟨le_refl _, h0, h1, hf, by trivial⟩
  · exact ⟨h1, show (0 : ℚ) ≤ 1 by norm_num, le_refl 1,
      ⟨fun _ => rfl, fun _ => rfl⟩, by trivial⟩
  · push_neg at hc
    exact ⟨le_add_of_nonneg_right hq, add_nonneg h0 hq, hc.le,
      ⟨fun h => absurd h hfin, fun h => absurd h (ne_of_lt hc)⟩, by trivial⟩

theorem web_missile_states_invariant (dts : List ℚ) (hdts : ∀ x ∈ dts, 0 ≤ x)
    (m : Web.Missile) (hd : 0 < m.duration) (h0 : 0 ≤ m.progress) (h1 : m.progress ≤ 1)
    (hf : m.finished = true ↔ m.progress = 1) :
    (∀ s ∈ m.states dts, 0 ≤ s.progress ∧ s.progress ≤ 1 ∧
        (s.finished = true ↔ s.progress = 1)) ∧
      List.Chain' (fun a b : Web.Missile => a.progress ≤ b.progress) (m.states dts) := by
  induction dts generalizing m with
  | nil =>
    simp only [Web.Missile.states, List.scanl_nil]
    exact ⟨by rintro s hs; simp only [List.mem_singleton] at hs; subst hs; exact ⟨h0, h1, hf⟩,
      List.chain'_singleton _⟩
  | cons dt dts ih =>
    have hdt : 0 ≤ dt := hdts dt (by simp)
    have hstep := web_missile_step_bounds hd hdt h0 h1 hf
    have hd' : 0 < (m.update dt).duration := hstep.2.2.2.2 ▸ hd
    have ihh := ih (fun x hx => hdts x (by simp [hx])) (m.update dt) hd'
      hstep.2.1 hstep.2.2.1 hstep.2.2.2.1
    simp only [Web.Missile.states, List.scanl_cons, List.singleton_append] at *
    constructor
    · rintro s hs
      rcases List.mem_cons.mp hs with rfl | hs'
      · exact ⟨h0, h1, hf⟩
      · exact ihh.1 s hs'
    · refine List.chain'_cons'.mpr ⟨?_, ihh.2⟩
      intro y hy
      simp only [List.head?_eq_getElem?, List.nil_append, List.getElem?_scanl_zero,
        Option.mem_def, Option.some.injEq] at hy
      subst hy
      exact hstep.1

/-- **C4.** For every sequence of non-negative delta times and every positive
duration, a missile created with progress 0 has a non-decreasing progress trace
bounded by 1 after every update, and its finished test holds exactly when
progress equals 1 — in the C++ implementation (`Missile::update` clamps
`progress + dt/duration` to 1.0 and `isFinished()` is `progress >= 1`) and in
the web implementation (`Missile.update` sets the `finished` flag when progress
reaches 1). -/
theorem missile_progress_monotone_clamped_isFinished_iff_one
    (d : ℚ) (hd : 0 < d) (dts : List ℚ) (hdts : ∀ x ∈ dts, 0 ≤ x) :
    (List.Chain' (fun a b : Cpp.Missile => a.progress ≤ b.progress)
        ((⟨0, d⟩ : Cpp.Missile).states dts) ∧
      ∀ s ∈ (⟨0, d⟩ : Cpp.Missile).states dts,
        0 ≤ s.progress ∧ s.progress ≤ 1 ∧ (s.isFinished = true ↔ s.progress = 1)) ∧
    (List.Chain' (fun a b : Web.Missile => a.progress ≤ b.progress)
        ((⟨0, d, false, false⟩ : Web.Missile).states dts) ∧
      ∀ s ∈ (⟨0, d, false, false⟩ : Web.Missile).states dts,
        0 ≤ s.progress ∧ s.progress ≤ 1 ∧ (s.finished = true ↔ s.progress = 1)) := by
  have hcpp := cpp_missile_states_invariant dts hdts ⟨0, d⟩ hd (le_refl 0) (by norm_num)
  have hweb := web_missile_states_invariant dts hdts ⟨0, d, false, false⟩ hd
    (le_refl 0) (by norm_num) (by simp)
  refine ⟨⟨hcpp.2, ?_⟩, ⟨hweb.2, hweb.1⟩⟩
  intro s hs
  obtain ⟨hs0, hs1, _⟩ := hcpp.1 s hs
  refine ⟨hs0, hs1, ?_⟩
  unfold Cpp.Missile.isFinished
  rw [decide_eq_true_iff]
  exact ⟨fun h => le_antisymm hs1 h, fun h => h.ge⟩

/-- Witness for C4: duration 12, delta times [7, 7] (the missile finishes on
the second tick). -/
theorem missile_progress_monotone_clamped_isFinished_iff_one_witness :
    (List.Chain' (fun a b : Cpp.Missile => a.progress ≤ b.progress)
        ((⟨0, 12⟩ : Cpp.Missile).states [7, 7]) ∧
      ∀ s ∈ (⟨0, 12⟩ : Cpp.Missile).states [7, 7],
        0 ≤ s.progress ∧ s.progress ≤ 1 ∧ (s.isFinished = true ↔ s.progress = 1)) ∧
    (List.Chain' (fun a b : Web.Missile => a.progress ≤ b.progress)
        ((⟨0, 12, false, false⟩ : Web.Missile).states [7, 7]) ∧
      ∀ s ∈ (⟨0, 12, false, false⟩ : Web.Missile).states [7, 7],
        0 ≤ s.progress ∧ s.progress ≤ 1 ∧ (s.finished = true ↔ s.progress = 1)) :=
  missile_progress_monotone_clamped_isFinished_iff_one 12 (by norm_num) [7, 7] (by decide)

/-- **C6.** `Aircraft::update` (main.cpp) is cyclic and never terminates: with a
positive period, a non-empty path, a progress in `[0,1)` and a non-negative dt,
the new progress is `(progress + dt/period) mod 1` (the fractional part) and
stays in `[0,1)`; concretely with period 30 and progress 0, `update(15)` gives
progress `0.5` and a second `update(15)` wraps back to `0`. -/
theorem aircraft_update_cyclic_mod_one :
    (∀ (d p dt : ℚ) (n : ℕ), 0 < d → n ≠ 0 → 0 ≤ p → p < 1 → 0 ≤ dt →
      Cpp.Aircraft.update d p n dt = Int.fract (p + dt / d) ∧
        0 ≤ Cpp.Aircraft.update d p n dt ∧ Cpp.Aircraft.update d p n dt < 1) ∧
    Cpp.Aircraft.update 30 0 240 15 = 1 / 2 ∧
    Cpp.Aircraft.update 30 (1 / 2) 240 15 = 0 := by
  refine ⟨?_, by norm_num [Cpp.Aircraft.update, Int.fract], by norm_num [Cpp.Aircraft.update]⟩
  intro d p dt n hd hn h0 h1 hdt
  have hguard : ¬(d ≤ 0 ∨ n = 0) := by
    push_neg
    exact ⟨hd, hn⟩
  have hp' : 0 ≤ p + dt / d := add_nonneg h0 (div_nonneg hdt hd.le)
  unfold Cpp.Aircraft.update
  simp only [hguard, if_neg, if_false]
  by_cases hc : 1 ≤ p + dt / d
  · simp only [hc, if_pos]
    exact ⟨rfl, Int.fract_nonneg _, Int.fract_lt_one _⟩
  · simp only [hc, if_neg, if_false]
    push_neg at hc
    rw [Int.fract_eq_self.mpr ⟨hp', hc⟩]
    exact ⟨rfl, hp', hc⟩

/-- Witness for C6: period 30, progress 1/4, dt 15. -/
theorem aircraft_update_cyclic_mod_one_witness :
    Cpp.Aircraft.update 30 (1 / 4) 240 15 = Int.fract ((1 / 4 : ℚ) + 15 / 30) ∧
      0 ≤ Cpp.Aircraft.update 30 (1 / 4) 240 15 ∧
      Cpp.Aircraft.update 30 (1 / 4) 240 15 < 1 :=
  aircraft_update_cyclic_mod_one.1 30 (1 / 4) 15 240 (by norm_num) (by norm_num)
    (by norm_num) (by norm_num) (by norm_num)

/-- Regional viewport, from wargames_web (`{ centerLon, centerLat, zoom }`). -/
structure Viewport where
  centerLon : ℚ
  centerLat : ℚ
  zoom : ℚ
deriving DecidableEq, Repr

/-- `lonLatToXY` from wargames_web/src/utils.js.  With a viewport it uses the
zoomed regional linear map (`zoom || 1.0` modelled as zoom-0 falling back to 1);
without one it is the global equirectangular projection. -/
def lonLatToXY (lon lat width height : ℚ) : Option Viewport → Point
  | some v =>
    let zoomLevel := if v.zoom = 0 then 1 else v.zoom
    let viewRangeX := 360 / zoomLevel
    let viewRangeY := 180 / zoomLevel
    let normX := (lon - v.centerLon) / (viewRangeX / 2)
    let normY := (lat - v.centerLat) / (viewRangeY / 2)
    ⟨(normX + 1) / 2 * width, (1 - normY) / 2 * height⟩
  | none => ⟨(lon + 180) / 360 * width, (90 - lat) / 180 * height⟩

/-- **C10.** Projecting any coordinate with the regional viewport
`{centerLon 0, centerLat 0, zoom 1}` gives exactly the same screen point as the
global equirectangular projection, for every canvas size: the regional linear
map reduces to `x = (lon+180)/360*width`, `y = (90-lat)/180*height` when the
visible span is the whole globe. -/
theorem lonLatToXY_identity_viewport_eq_global (lon lat width height : ℚ) :
    lonLatToXY lon lat width height (some ⟨0, 0, 1⟩) =
      lonLatToXY lon lat width height none := by
  simp only [lonLatToXY]
  norm_num [Point.mk.injEq]
  exact ⟨Or.inl (by ring), Or.inl (by ring)⟩

namespace Renderer

/-- Alpha/width/color schedule of the glow loop shared verbatim by
`Renderer::drawLineWithGlow`, `Renderer::drawCircleWithGlow` and
`Renderer::drawPathWithGlow` (Renderer.cpp):
`for (int i = layers-1; i >= 0; i--) { layerAlpha = (i==0) ? 1.0f : 0.3f/layers;
layerWidth = 1.0f + (layers-i)*0.8f; draw(..., Color(r,g,b,a*layerAlpha), layerWidth); }`.
Entry `k` of the list is the `k`-th primitive draw issued, i.e. loop index
`i = layers-1-k`; the pair is (layer color, layer width). -/
def glowLayers (c : Color) (layers : ℕ) : List (Color × ℚ) :=
  (List.range layers).map fun k =>
    (⟨c.r, c.g, c.b, c.a * (if layers - 1 - k = 0 then (1 : ℚ) else 3 / 10 / (layers : ℚ))⟩,
      1 + ((layers : ℚ) - ((layers - 1 - k : ℕ) : ℚ)) * (4 / 5))

/-- `Renderer::drawLineWithGlow`: the sequence of `drawLine` calls it issues. -/
def drawLineWithGlow (x1 y1 x2 y2 : ℚ) (c : Color) (layers : ℕ) :
    List (ℚ × ℚ × ℚ × ℚ × Color × ℚ) :=
  (glowLayers c layers).map fun g => (x1, y1, x2, y2, g.1, g.2)

/-- `Renderer::drawCircleWithGlow`: the sequence of `drawCircle` calls it issues. -/
def drawCircleWithGlow (x y radius : ℚ) (c : Color) (layers : ℕ) :
    List (ℚ × ℚ × ℚ × Color × ℚ) :=
  (glowLayers c layers).map fun g => (x, y, radius, g.1, g.2)

/-- `Renderer::drawPathWithGlow`: the sequence of `drawPath` calls it issues. -/
def drawPathWithGlow (points : List Point) (c : Color) (layers : ℕ) :
    List (List Point × Color × ℚ) :=
  (glowLayers c layers).map fun g => (points, g.1, g.2)

end Renderer

theorem glowLayers_getElem (c : Color) (L k : ℕ) (hk : k < L) :
    (Renderer.glowLayers c L)[k]? =
      some (⟨c.r, c.g, c.b, c.a * (if k = L - 1 then (1 : ℚ) else 3 / 10 / (L : ℚ))⟩,
        1 + ((k : ℚ) + 1) * (4 / 5)) := by
  unfold Renderer.glowLayers
  rw [List.getElem?_map, List.getElem?_range hk]
  have hiff : (L - 1 - k = 0) ↔ (k = L - 1) := by omega
  have hcast : ((L - 1 - k : ℕ) : ℚ) = (L : ℚ) - 1 - (k : ℚ) := by
    have h1 : L - 1 - k = L - (1 + k) := by omega
    rw [h1, Nat.cast_sub (by omega)]
    push_cast
    ring
  simp only [Option.map_some', hiff, hcast, Option.some.injEq, Prod.mk.injEq, Color.mk.injEq]
  exact ⟨by trivial, by ring⟩

/-- **C7.** Each glow-draw helper with layer count `layers` issues exactly
`layers` draws of its primitive, iterating the loop index `i` from `layers-1`
down to `0` (so the `k`-th draw issued has `i = layers-1-k`): the `k`-th draw
uses alpha `1.0` when `i == 0` (i.e. `k = layers-1`) and `0.3/layers`
otherwise, width `1.0 + (layers-i)*0.8 = 1.0 + (k+1)*0.8`, and color
`(color.rgb, color.a*alpha)`.  The widest layer, of width `1.0 + layers*0.8`,
is the `i == 0`, alpha-`1.0` layer, it is drawn last, and every other layer is
strictly narrower. -/
theorem glow_draws_schedule (c : Color) (L : ℕ) (x1 y1 x2 y2 cx cy r : ℚ)
    (pts : List Point) :
    (Renderer.drawLineWithGlow x1 y1 x2 y2 c L).length = L ∧
    (Renderer.drawCircleWithGlow cx cy r c L).length = L ∧
    (Renderer.drawPathWithGlow pts c L).length = L ∧
    (∀ k, k < L →
      (Renderer.drawLineWithGlow x1 y1 x2 y2 c L)[k]? =
        some (x1, y1, x2, y2,
          ⟨c.r, c.g, c.b, c.a * (if k = L - 1 then (1 : ℚ) else 3 / 10 / (L : ℚ))⟩,
          1 + ((k : ℚ) + 1) * (4 / 5)) ∧
      (Renderer.drawCircleWithGlow cx cy r c L)[k]? =
        some (cx, cy, r,
          ⟨c.r, c.g, c.b, c.a * (if k = L - 1 then (1 : ℚ) else 3 / 10 / (L : ℚ))⟩,
          1 + ((k : ℚ) + 1) * (4 / 5)) ∧
      (Renderer.drawPathWithGlow pts c L)[k]? =
        some (pts,
          ⟨c.r, c.g, c.b, c.a * (if k = L - 1 then (1 : ℚ) else 3 / 10 / (L : ℚ))⟩,
          1 + ((k : ℚ) + 1) * (4 / 5))) ∧
    (1 ≤ L →
      (Renderer.glowLayers c L)[L - 1]? =
        some (⟨c.r, c.g, c.b, c.a * 1⟩, 1 + (L : ℚ) * (4 / 5)) ∧
      ∀ k, k < L - 1 → 1 + ((k : ℚ) + 1) * (4 / 5) < 1 + (L : ℚ) * (4 / 5)) := by
  have hlen : (Renderer.glowLayers c L).length = L := by
    unfold Renderer.glowLayers
    rw [List.length_map, List.length_range]
  refine ⟨?_, ?_, ?_, ?_, ?_⟩
  · unfold Renderer.drawLineWithGlow
    rw [List.length_map, hlen]
  · unfold Renderer.drawCircleWithGlow
    rw [List.length_map, hlen]
  · unfold Renderer.drawPathWithGlow
    rw [List.length_map, hlen]
  · intro k hk
    have h := glowLayers_getElem c L k hk
    refine ⟨?_, ?_, ?_⟩
    · unfold Renderer.drawLineWithGlow
      rw [List.getElem?_map, h]
      rfl
    · unfold Renderer.drawCircleWithGlow
      rw [List.getElem?_map, h]
      rfl
    · unfold Renderer.drawPathWithGlow
      rw [List.getElem?_map, h]
      rfl
  · intro hL
    constructor
    · have h := glowLayers_getElem c L (L - 1) (by omega)
      rw [h]
      have hcast : ((L - 1 : ℕ) : ℚ) + 1 = (L : ℚ) := by
        rw [Nat.cast_sub (by omega)]
        push_cast
        ring
      rw [if_pos rfl, hcast]
    · intro k hk
      have hlt : (k : ℚ) + 1 < (L : ℚ) := by
        have h2 : (k + 1 : ℕ) < L := by omega
        exact_mod_cast h2
      nlinarith

/-- Witness for C7: the schedule of a 3-layer glow draw at concrete inputs. -/
theorem glow_draws_schedule_witness :
    (Renderer.drawLineWithGlow 0 0 5 5 ⟨0, 1, 1, 1⟩ 3)[2]? =
      some (0, 0, 5, 5,
        ⟨0, 1, 1, (1 : ℚ) * (if 2 = 3 - 1 then (1 : ℚ) else 3 / 10 / ((3 : ℕ) : ℚ))⟩,
        1 + ((2 : ℚ) + 1) * (4 / 5)) :=
  ((glow_draws_schedule ⟨0, 1, 1, 1⟩ 3 0 0 5 5 0 0 0 []).2.2.2.1 2 (by norm_num)).1

namespace Cpp

/-- `Explosion::RING_DELAYS` from Aircraft.hpp: `{0.0f, 0.3f, 0.6f, 0.9f}`
(`NUM_RINGS = 4`). -/
def RING_DELAYS : Fin 4 → ℚ
  | 0 => 0
  | 1 => 3 / 10
  | 2 => 3 / 5
  | 3 => 9 / 10

/-- `m_duration` set by the `Explosion` constructor (Explosion.cpp): 2.5 s. -/
def explosionDuration : ℚ := 5 / 2

/-- Whether `Explosion::draw` (Explosion.cpp) draws ring `i` at the given age:
`ringAge = m_age - RING_DELAYS[i]; if (ringAge < 0) continue;
t = ringAge / ringDuration; if (t > 1) continue;` where the shared
`ringDuration = m_duration - RING_DELAYS[NUM_RINGS-1]`. -/
def Explosion.ringVisible (age : ℚ) (i : Fin 4) : Bool :=
  if age - RING_DELAYS i < 0 then false
  else if 1 < (age - RING_DELAYS i) / (explosionDuration - RING_DELAYS 3) then false
  else true

/-- `Explosion::isFinished` (Aircraft.hpp): `m_age >= m_duration`. -/
def Explosion.isFinished (age : ℚ) : Bool := explosionDuration ≤ age

end Cpp

namespace Web

/-- Ring delays of the web `Explosion.rings` array (Explosion.js). -/
def ringDelay : Fin 4 → ℚ
  | 0 => 0
  | 1 => 3 / 10
  | 2 => 3 / 5
  | 3 => 9 / 10

/-- `this.duration` of the web `Explosion` (Explosion.js): 2.5 s. -/
def explosionDuration : ℚ := 5 / 2

/-- Whether web `Explosion.render` draws ring `i` at the given elapsed time:
`ringElapsed = elapsed - ring.delay; if (ringElapsed < 0) continue;
if (ringElapsed > this.duration - ring.delay) continue;`. -/
def Explosion.ringVisible (elapsed : ℚ) (i : Fin 4) : Bool :=
  if elapsed - ringDelay i < 0 then false
  else if explosionDuration - ringDelay i < elapsed - ringDelay i then false
  else true

/-- Web `Explosion.update`: `finished` becomes true when
`elapsed >= this.duration`. -/
def Explosion.finishedAt (elapsed : ℚ) : Bool := explosionDuration ≤ elapsed

end Web

/-- **C2 counterexample.** In the C++ implementation, ring 0 at age 2.0 is NOT
drawn (its `t = 2.0 / (duration - RING_DELAYS[3]) = 2.0/1.6 > 1` fails the
draw test) even though `0 ≤ age - delay_0 = 2.0 ≤ duration - delay_0 = 2.5`:
the claimed visibility window `0 ≤ age-delay_i ≤ duration-delay_i` is wrong
for the C++ `Explosion::draw`. -/
theorem explosion_ring_window_counterexample :
    ¬ (Cpp.Explosion.ringVisible 2 0 = true ↔
        (0 ≤ (2 : ℚ) - Cpp.RING_DELAYS 0 ∧
          (2 : ℚ) - Cpp.RING_DELAYS 0 ≤ Cpp.explosionDuration - Cpp.RING_DELAYS 0)) := by
  intro h
  norm_num [Cpp.Explosion.ringVisible, Cpp.RING_DELAYS, Cpp.explosionDuration] at h

/-- **C2 (amended).** Ring visibility: in the C++ implementation ring `i` is
drawn at `age` iff `0 ≤ age - delay_i ≤ duration - delay_3` (every ring shares
the upper bound `ringDuration = duration - RING_DELAYS[NUM_RINGS-1] = 1.6`); in
the web implementation ring `i` is drawn iff
`0 ≤ age - delay_i ≤ duration - delay_i` as the claim states; and in both the
explosion is finished exactly when the age reaches the duration
(`isFinished()` iff `age ≥ duration`). -/
theorem explosion_ring_window_and_finished (age : ℚ) (i : Fin 4) :
    (Cpp.Explosion.ringVisible age i = true ↔
      (0 ≤ age - Cpp.RING_DELAYS i ∧
        age - Cpp.RING_DELAYS i ≤ Cpp.explosionDuration - Cpp.RING_DELAYS 3)) ∧
    (Web.Explosion.ringVisible age i = true ↔
      (0 ≤ age - Web.ringDelay i ∧
        age - Web.ringDelay i ≤ Web.explosionDuration - Web.ringDelay i)) ∧
    (Cpp.Explosion.isFinished age = true ↔ Cpp.explosionDuration ≤ age) ∧
    (Web.Explosion.finishedAt age = true ↔ Web.explosionDuration ≤ age) := by
  have hpos : (0 : ℚ) < Cpp.explosionDuration - Cpp.RING_DELAYS 3 := by
    norm_num [Cpp.explosionDuration, Cpp.RING_DELAYS]
  refine ⟨?_, ?_, ?_, ?_⟩
  · unfold Cpp.Explosion.ringVisible
    split_ifs with h1 h2
    · simp only [Bool.false_eq_true, false_iff]
      intro hcon
      exact absurd hcon.1 (not_le.mpr h1)
    · simp only [Bool.false_eq_true, false_iff]
      intro hcon
      exact absurd hcon.2 (not_le.mpr ((one_lt_div hpos).mp h2))
    · simp only [true_iff]
      exact ⟨not_lt.mp h1, (div_le_one hpos).mp (not_lt.mp h2)⟩
  · unfold Web.Explosion.ringVisible
    split_ifs with h1 h2
    · simp only [Bool.false_eq_true, false_iff]
      intro hcon
      exact absurd hcon.1 (not_le.mpr h1)
    · simp only [Bool.false_eq_true, false_iff]
      intro hcon
      exact absurd hcon.2 (not_le.mpr h2)
    · simp only [true_iff]
      exact ⟨not_lt.mp h1, not_lt.mp h2⟩
  · unfold Cpp.Explosion.isFinished
    exact decide_eq_true_iff
  · unfold Web.Explosion.finishedAt
    exact decide_eq_true_iff

namespace Cpp

/-- The C++ missile state driving the explosion handoff (Missile.hpp):
`m_progress`, `m_duration` and the precomputed screen-space path `m_path`,
fixed at construction and never mutated. -/
structure PathMissile where
  progress : ℚ
  duration : ℚ
  path : List Point
deriving DecidableEq, Repr

/-- `Missile::update` on the handoff state (VectorMap.cpp): the same
`m_progress += dt / m_duration` and clamp to 1.0 as `Missile.update`; the path
is untouched. -/
def PathMissile.update (m : PathMissile) (dt : ℚ) : PathMissile :=
  if 1 < m.progress + dt / m.duration then ⟨1, m.duration, m.path⟩
  else ⟨m.progress + dt / m.duration, m.duration, m.path⟩

/-- `Missile::isFinished` (Missile.hpp): `m_progress >= 1.0f`. -/
def PathMissile.isFinished (m : PathMissile) : Bool := 1 ≤ m.progress

/-- `Missile::getPosition` (VectorMap.cpp):
`if (m_path.empty()) return Point(0, 0);
int idx = static_cast<int>(m_progress * (m_path.size() - 1));
if (idx >= m_path.size()) idx = m_path.size() - 1; return m_path[idx];`.
`static_cast<int>` truncates toward zero; `Int.toNat ∘ Int.floor` agrees with
it on every non-negative progress (the reachable ones), and both index 0 for
progresses below zero. -/
def PathMissile.getPosition (m : PathMissile) : Point :=
  if m.path.isEmpty then ⟨0, 0⟩
  else if m.path.length ≤ (⌊m.progress * ((m.path.length : ℚ) - 1)⌋).toNat
  then m.path.getD (m.path.length - 1) ⟨0, 0⟩
  else m.path.getD (⌊m.progress * ((m.path.length : ℚ) - 1)⌋).toNat ⟨0, 0⟩

/-- The slice of the C++ main-loop state driving the missile → explosion
handoff (main.cpp): the missile collection and the spawn positions of the
explosions created so far (`Explosion(pos.x, pos.y, ...)`). -/
structure SimState where
  missiles : List PathMissile
  explosions : List Point
deriving DecidableEq, Repr

/-- One tick of the C++ main loop (main.cpp): every missile is updated; for
each missile that `isFinished()` one explosion is pushed at
`missile->getPosition()`; then the finished missiles are erased with
`remove_if` — all within the same tick. -/
def tick (s : SimState) (dt : ℚ) : SimState :=
  { missiles := (s.missiles.map (fun m => m.update dt)).filter (fun m => !m.isFinished),
    explosions := s.explosions ++
      ((s.missiles.map (fun m => m.update dt)).filter
        (fun m => m.isFinished)).map (fun m => m.getPosition) }

/-- The C++ main loop run over a sequence of frame delta times. -/
def run (s : SimState) (dts : List ℚ) : SimState := dts.foldl tick s

end Cpp

namespace Web

/-- The web missile state driving the explosion handoff (Missile.js /
SimulationState.js): `progress`, `duration`, the `finished` and `exploded`
flags, and the launch `target` at which `SimulationState.update` spawns
`new Explosion(missile.target.lat, missile.target.lon, time)`. -/
structure SimMissile where
  progress : ℚ
  duration : ℚ
  finished : Bool
  exploded : Bool
  target : LatLon
deriving DecidableEq, Repr

/-- `Missile.update` (Missile.js) on the handoff state: `if (this.finished)
return; this.progress += deltaTime / this.duration; if (this.progress >= 1.0)
{ this.progress = 1.0; this.finished = true; }` -/
def SimMissile.update (m : SimMissile) (dt : ℚ) : SimMissile :=
  if m.finished then m
  else if 1 ≤ m.progress + dt / m.duration then { m with progress := 1, finished := true }
  else { m with progress := m.progress + dt / m.duration }

/-- Per-missile body of `SimulationState.update`: update the missile; then
`if (missile.finished && !missile.exploded) { missile.exploded = true;
explosions.push(new Explosion(missile.target.lat, missile.target.lon, ...)) }`.
Returns the missile and the spawn positions of the explosions it created this
tick (none or one). -/
def missileStep (dt : ℚ) (m : SimMissile) : SimMissile × List LatLon :=
  if (m.update dt).finished && !(m.update dt).exploded
  then ({ m.update dt with exploded := true }, [(m.update dt).target])
  else (m.update dt, [])

/-- The slice of the web `SimulationState` driving the handoff. -/
structure SimState where
  missiles : List SimMissile
  explosions : List LatLon
deriving DecidableEq, Repr

/-- One tick of `SimulationState.update` (SimulationState.js): update missiles
and spawn flag-guarded explosions at the missiles' targets, then clean up with
`missiles.filter(m => !m.finished || !m.exploded)`. -/
def tick (s : SimState) (dt : ℚ) : SimState :=
  { missiles := ((s.missiles.map (missileStep dt)).map Prod.fst).filter
      (fun m => !m.finished || !m.exploded),
    explosions := s.explosions ++
      ((s.missiles.map (missileStep dt)).map Prod.snd).flatten }

/-- The web update loop run over a sequence of frame delta times. -/
def run (s : SimState) (dts : List ℚ) : SimState := dts.foldl tick s

end Web

/-- Handoff invariant for a single C++ missile of duration `d` and path `pts`:
either the missile finished, exactly one explosion exists — spawned at the
path's terminal point — and the missile was removed; or it is still flying
(progress in `[0,1)`, path intact) and no explosion exists. -/
def cppHandoffInv (d : ℚ) (pts : List Point) (s : Cpp.SimState) : Prop :=
  (s.explosions = [pts.getLastD ⟨0, 0⟩] ∧ s.missiles = []) ∨
    (s.explosions = [] ∧ ∃ q, 0 ≤ q ∧ q < 1 ∧ s.missiles = [⟨q, d, pts⟩])

/-- Handoff invariant for a single web missile of duration `d` and target
`tgt`: either exactly one explosion exists, spawned at the target, and the
missile was cleaned up; or it is still flying and no explosion exists. -/
def webHandoffInv (d : ℚ) (tgt : LatLon) (s : Web.SimState) : Prop :=
  (s.explosions = [tgt] ∧ s.missiles = []) ∨
    (s.explosions = [] ∧ ∃ q, 0 ≤ q ∧ q < 1 ∧ s.missiles = [⟨q, d, false, false, tgt⟩])

/-- At progress 1, `Missile::getPosition` indexes
`int(1.0 * (size-1)) = size-1` and returns the last point of the path. -/
theorem getPosition_finished (pts : List Point) (hne : pts ≠ []) (d : ℚ) :
    (⟨1, d, pts⟩ : Cpp.PathMissile).getPosition = pts.getLastD ⟨0, 0⟩ := by
  have hlen : 0 < pts.length := List.length_pos.mpr hne
  have hempty : pts.isEmpty = false := by
    cases pts with
    | nil => exact absurd rfl hne
    | cons a l => rfl
  have hflo : ⌊(1 : ℚ) * ((pts.length : ℚ) - 1)⌋ = (pts.length : ℤ) - 1 := by
    rw [one_mul, show ((pts.length : ℚ) - 1) = (((pts.length : ℤ) - 1 : ℤ) : ℚ) by push_cast; ring]
    exact Int.floor_intCast _
  unfold Cpp.PathMissile.getPosition
  rw [if_neg (by simp [hempty])]
  simp only [hflo]
  have htoNat : ((pts.length : ℤ) - 1).toNat = pts.length - 1 := by omega
  rw [htoNat, if_neg (by omega),
    List.getD_eq_getElem?_getD, List.getLastD_eq_getLast?, List.getLast?_eq_getElem?]

theorem cpp_tick_handoff {d : ℚ} (hd : 0 < d) {pts : List Point} (hne : pts ≠ [])
    {s : Cpp.SimState} {dt : ℚ} (hdt : 0 ≤ dt) (hs : cppHandoffInv d pts s) :
    cppHandoffInv d pts (Cpp.tick s dt) := by
  rcases hs with ⟨he, hm⟩ | ⟨he, q, hq0, hq1, hm⟩
  · left
    simp [Cpp.tick, hm, he]
  · have hupd1 : (⟨q, d, pts⟩ : Cpp.PathMissile).update dt =
        if 1 < q + dt / d then ⟨1, d, pts⟩ else ⟨q + dt / d, d, pts⟩ := rfl
    by_cases hcase : 1 ≤ q + dt / d
    · have hupd : (⟨q, d, pts⟩ : Cpp.PathMissile).update dt = ⟨1, d, pts⟩ := by
        rw [hupd1]
        rcases lt_or_eq_of_le hcase with h | h
        · rw [if_pos h]
        · rw [if_neg (by rw [← h]; exact lt_irrefl 1), ← h]
      have hfin : (⟨1, d, pts⟩ : Cpp.PathMissile).isFinished = true := by
        unfold Cpp.PathMissile.isFinished
        norm_num
      left
      constructor
      · simp [Cpp.tick, hm, he, hupd, hfin, getPosition_finished pts hne d]
      · simp [Cpp.tick, hm, hupd, hfin]
    · have hupd : (⟨q, d, pts⟩ : Cpp.PathMissile).update dt = ⟨q + dt / d, d, pts⟩ := by
        rw [hupd1, if_neg (fun hcon => hcase hcon.le)]
      have hfin : (⟨q + dt / d, d, pts⟩ : Cpp.PathMissile).isFinished = false := by
        unfold Cpp.PathMissile.isFinished
        simpa using hcase
      right
      refine ⟨by simp [Cpp.tick, hm, he, hupd, hfin], q + dt / d,
        add_nonneg hq0 (div_nonneg hdt hd.le), not_le.mp hcase, ?_⟩
      simp [Cpp.tick, hm, hupd, hfin]

theorem web_tick_handoff {d : ℚ} (hd : 0 < d) (tgt : LatLon) {s : Web.SimState}
    {dt : ℚ} (hdt : 0 ≤ dt) (hs : webHandoffInv d tgt s) :
    webHandoffInv d tgt (Web.tick s dt) := by
  rcases hs with ⟨he, hm⟩ | ⟨he, q, hq0, hq1, hm⟩
  · left
    simp [Web.tick, hm, he]
  · by_cases hc : 1 ≤ q + dt / d
    · have hupd : (⟨q, d, false, false, tgt⟩ : Web.SimMissile).update dt =
          ⟨1, d, true, false, tgt⟩ := by
        simp [Web.SimMissile.update, hc]
      left
      constructor
      · simp [Web.tick, hm, he, Web.missileStep, hupd]
      · simp [Web.tick, hm, Web.missileStep, hupd]
    · have hupd : (⟨q, d, false, false, tgt⟩ : Web.SimMissile).update dt =
          ⟨q + dt / d, d, false, false, tgt⟩ := by
        simp [Web.SimMissile.update, hc]
      right
      refine ⟨by simp [Web.tick, hm, he, Web.missileStep, hupd], q + dt / d,
        add_nonneg hq0 (div_nonneg hdt hd.le), not_le.mp hc, ?_⟩
      simp [Web.tick, hm, Web.missileStep, hupd]

/-- **C1.** The finished → explosion handoff happens exactly once per missile,
within the tick in which the missile finishes, and the explosion is spawned at
the missile path's terminal point.  Starting one missile (progress in `[0,1)`,
positive duration, non-empty path) and no explosions, after every prefix of
any sequence of non-negative frame delta times the simulation is in exactly
one of two states: the missile finished and exactly one explosion was spawned
— in C++ at `missile->getPosition()`, which at progress 1 is the last point of
`m_path` (`getPosition_finished`), and on the web at `missile.target`, the
terminal point of its turf-computed path (`wpath` with the geodesic endpoint
contract `wpath.getLastD = target`, cf. C5) — with the missile removed by
`remove_if` (C++) / `exploded`-flagged and filtered out (web) that same tick;
or the missile is still flying strictly below progress 1 and no explosion
exists.  So the spawn happens never zero times, never twice, never at another
point, and never on a later tick than the finish. -/
theorem missile_explosion_handoff_exactly_once (p d : ℚ) (hp0 : 0 ≤ p)
    (hp1 : p < 1) (hd : 0 < d) (pts : List Point) (hne : pts ≠ [])
    (wpath : List LatLon) (tgt : LatLon) (hwlast : wpath.getLastD ⟨0, 0⟩ = tgt)
    (dts : List ℚ) (hdts : ∀ x ∈ dts, 0 ≤ x) :
    ∀ n : ℕ,
      cppHandoffInv d pts (Cpp.run ⟨[⟨p, d, pts⟩], []⟩ (dts.take n)) ∧
        webHandoffInv d (wpath.getLastD ⟨0, 0⟩)
          (Web.run ⟨[⟨p, d, false, false, tgt⟩], []⟩ (dts.take n)) := by
  subst hwlast
  have hcpp0 : cppHandoffInv d pts ⟨[⟨p, d, pts⟩], []⟩ :=
    Or.inr ⟨rfl, p, hp0, hp1, rfl⟩
  have hweb0 : webHandoffInv d (wpath.getLastD ⟨0, 0⟩)
      ⟨[⟨p, d, false, false, wpath.getLastD ⟨0, 0⟩⟩], []⟩ :=
    Or.inr ⟨rfl, p, hp0, hp1, rfl⟩
  have main : ∀ (l : List ℚ), (∀ x ∈ l, 0 ≤ x) →
      ∀ (sc : Cpp.SimState) (sw : Web.SimState),
      cppHandoffInv d pts sc → webHandoffInv d (wpath.getLastD ⟨0, 0⟩) sw →
      ∀ n : ℕ, cppHandoffInv d pts (Cpp.run sc (l.take n)) ∧
        webHandoffInv d (wpath.getLastD ⟨0, 0⟩) (Web.run sw (l.take n)) := by
    intro l
    induction l with
    | nil =>
      intro _ sc sw hc hw n
      simp only [List.take_nil]
      exact ⟨hc, hw⟩
    | cons dt rest ih =>
      intro hl sc sw hc hw n
      cases n with
      | zero =>
        simp only [List.take_zero]
        exact ⟨hc, hw⟩
      | succ k =>
        have hdt : 0 ≤ dt := hl dt (by simp)
        have hc' := cpp_tick_handoff hd hne hdt hc
        have hw' := web_tick_handoff hd (wpath.getLastD ⟨0, 0⟩) hdt hw
        have := ih (fun x hx => hl x (by simp [hx])) (Cpp.tick sc dt) (Web.tick sw dt)
          hc' hw' k
        simpa [Cpp.run, Web.run, List.take_succ_cons] using this
  exact main dts hdts _ _ hcpp0 hweb0

/-- Witness for C1: one missile of duration 12 with a two-point path over
delta times `[7, 7]` (it finishes on the second tick and its explosion is
spawned at the path's terminal point). -/
theorem missile_explosion_handoff_exactly_once_witness :
    cppHandoffInv 12 [⟨0, 0⟩, ⟨5, 5⟩]
        (Cpp.run ⟨[⟨0, 12, [⟨0, 0⟩, ⟨5, 5⟩]⟩], []⟩ ([7, 7].take 2)) ∧
      webHandoffInv 12 (([⟨0, 0⟩, ⟨0, 170⟩] : List LatLon).getLastD ⟨0, 0⟩)
        (Web.run ⟨[⟨0, 12, false, false, ⟨0, 170⟩⟩], []⟩ ([7, 7].take 2)) :=
  missile_explosion_handoff_exactly_once 0 12 (by norm_num) (by norm_num)
    (by norm_num) [⟨0, 0⟩, ⟨5, 5⟩] (by simp) [⟨0, 0⟩, ⟨0, 170⟩] ⟨0, 170⟩ rfl
    [7, 7] (by decide) 2


namespace VectorMap

/-- `VectorMap::crossesAntimeridian` (VectorMap.cpp): a consecutive pair
crosses when `|p2.x - p1.x| > SCREEN_WIDTH * 0.5` (strict comparison). -/
def crossesAntimeridian (p1 p2 : Point) : Bool :=
  SCREEN_WIDTH * (1 / 2) < |p2.x - p1.x|

/-- Recursive core of `VectorMap::splitAtAntimeridian` (VectorMap.cpp): `cur`
is the current segment built so far and `prev` its last point.  On a crossing
the current segment is saved (only when its size exceeds 1), and the new
segment begins at the current point — no stitching point is inserted.  The
final segment is saved under the same size guard. -/
def splitAux (prev : Point) (cur : List Point) : List Point → List (List Point)
  | [] => if 1 < cur.length then [cur] else []
  | p :: rest =>
    if crossesAntimeridian prev p
    then (if 1 < cur.length then [cur] else []) ++ splitAux p [p] rest
    else splitAux p (cur ++ [p]) rest

/-- `VectorMap::splitAtAntimeridian` (VectorMap.cpp): the ordered list of
output segments (the uniform color attached to each pushed segment is
dropped). -/
def splitAtAntimeridian : List Point → List (List Point)
  | [] => []
  | p :: rest => splitAux p [p] rest

end VectorMap

/-- The non-crossing relation between consecutive screen points. -/
def noCross (a b : Point) : Prop := VectorMap.crossesAntimeridian a b = false

theorem noCross_iff (p1 p2 : Point) :
    noCross p1 p2 ↔ |p2.x - p1.x| ≤ SCREEN_WIDTH * (1 / 2) := by
  unfold noCross VectorMap.crossesAntimeridian
  rw [decide_eq_false_iff_not, not_lt]

theorem splitAux_no_cross (rest : List Point) : ∀ (prev : Point) (cur : List Point),
    List.Chain noCross prev rest →
    VectorMap.splitAux prev cur rest =
      if 1 < (cur ++ rest).length then [cur ++ rest] else [] := by
  induction rest with
  | nil =>
    intro prev cur _
    simp [VectorMap.splitAux]
  | cons p rest ih =>
    intro prev cur hch
    rcases List.chain_cons.mp hch with ⟨h1, h2⟩
    rw [VectorMap.splitAux, if_neg (by simp [noCross] at h1; simp [h1]), ih p (cur ++ [p]) h2]
    rw [List.append_assoc, List.singleton_append]

theorem splitAux_one_cross (xs : List Point) :
    ∀ (prev : Point) (cur : List Point) (y : Point) (ys : List Point),
    List.Chain noCross prev xs →
    VectorMap.crossesAntimeridian ((prev :: xs).getLast (List.cons_ne_nil prev xs)) y = true →
    List.Chain noCross y ys →
    VectorMap.splitAux prev cur (xs ++ y :: ys) =
      (if 1 < (cur ++ xs).length then [cur ++ xs] else []) ++
        (if 1 < (y :: ys).length then [y :: ys] else []) := by
  induction xs with
  | nil =>
    intro prev cur y ys _ hcross hys
    simp only [List.getLast_singleton] at hcross
    rw [List.nil_append, VectorMap.splitAux, if_pos hcross, splitAux_no_cross ys y [y] hys]
    rw [List.append_nil, List.singleton_append]
  | cons x xs ih =>
    intro prev cur y ys hch hcross hys
    rcases List.chain_cons.mp hch with ⟨h1, h2⟩
    have hlast : (prev :: x :: xs).getLast (List.cons_ne_nil prev (x :: xs)) =
        (x :: xs).getLast (List.cons_ne_nil x xs) :=
      List.getLast_cons (List.cons_ne_nil x xs)
    rw [hlast] at hcross
    rw [List.cons_append, VectorMap.splitAux,
      if_neg (by simp [noCross] at h1; simp [h1]),
      ih x (cur ++ [x]) y ys h2 hcross hys]
    rw [List.append_assoc, List.singleton_append]

/-- **C3 counterexample.** The two-point polyline `[(0,0), (1900,0)]` contains
exactly one consecutive pair, and that pair crosses
(`|Δx| = 1900 > 960 = width/2`), yet `splitAtAntimeridian` returns no segment
at all — not two — because both candidate segments have fewer than 2 points
and are discarded. -/
theorem splitPath_single_crossing_counterexample :
    VectorMap.crossesAntimeridian ⟨0, 0⟩ ⟨1900, 0⟩ = true ∧
      VectorMap.splitAtAntimeridian [⟨0, 0⟩, ⟨1900, 0⟩] = [] ∧
      (VectorMap.splitAtAntimeridian [⟨0, 0⟩, ⟨1900, 0⟩]).length ≠ 2 := by
  have hc : VectorMap.crossesAntimeridian ⟨0, 0⟩ ⟨1900, 0⟩ = true := by
    unfold VectorMap.crossesAntimeridian
    rw [decide_eq_true_iff]
    norm_num [SCREEN_WIDTH]
  have hsplit : VectorMap.splitAtAntimeridian [⟨0, 0⟩, ⟨1900, 0⟩] = [] := by
    rw [VectorMap.splitAtAntimeridian, VectorMap.splitAux, if_pos hc]
    simp [VectorMap.splitAux]
  exact ⟨hc, hsplit, by rw [hsplit]; simp⟩

/-- **C3 (amended).** `splitAtAntimeridian` applied to a polyline of at least
two points with no crossing pair returns exactly one segment equal to the
input; applied to a polyline with exactly one crossing pair it returns exactly
two segments — the part before the crossing and the part from the crossing on
— provided each part has at least two points (parts shorter than 2 points are
discarded, as the two-point counterexample forces). -/
theorem splitPath_segment_counts (x : Point) (xs : List Point) (y : Point)
    (ys : List Point) :
    (List.Chain noCross x xs → 1 ≤ xs.length →
      VectorMap.splitAtAntimeridian (x :: xs) = [x :: xs]) ∧
    (List.Chain noCross x xs → 1 ≤ xs.length → 1 ≤ ys.length →
      VectorMap.crossesAntimeridian ((x :: xs).getLast (List.cons_ne_nil x xs)) y = true →
      List.Chain noCross y ys →
      VectorMap.splitAtAntimeridian ((x :: xs) ++ y :: ys) = [x :: xs, y :: ys]) := by
  constructor
  · intro hch hlen
    rw [VectorMap.splitAtAntimeridian, splitAux_no_cross xs x [x] hch,
      List.singleton_append, if_pos (by simp; omega)]
  · intro hch hxs hys hcross hchy
    rw [List.cons_append, VectorMap.splitAtAntimeridian,
      splitAux_one_cross xs x [x] y ys hch hcross hchy,
      List.singleton_append, if_pos (by simp; omega), if_pos (by simp; omega)]
    rfl

/-- Witness for C3: the non-crossing two-point path `[(0,0),(1,0)]` yields one
segment equal to the input, and the path `[(0,0),(1,0),(1900,0),(1901,0)]`
with its single crossing between `(1,0)` and `(1900,0)` yields exactly the two
segments. -/
theorem splitPath_segment_counts_witness :
    VectorMap.splitAtAntimeridian [⟨0, 0⟩, ⟨1, 0⟩] = [[⟨0, 0⟩, ⟨1, 0⟩]] ∧
      VectorMap.splitAtAntimeridian [⟨0, 0⟩, ⟨1, 0⟩, ⟨1900, 0⟩, ⟨1901, 0⟩] =
        [[⟨0, 0⟩, ⟨1, 0⟩], [⟨1900, 0⟩, ⟨1901, 0⟩]] := by
  have hnc : noCross ⟨0, 0⟩ ⟨1, 0⟩ := by
    rw [noCross_iff]
    norm_num [SCREEN_WIDTH]
  have hnc2 : noCross ⟨1900, 0⟩ ⟨1901, 0⟩ := by
    rw [noCross_iff]
    norm_num [SCREEN_WIDTH]
  have hcr : VectorMap.crossesAntimeridian ⟨1, 0⟩ ⟨1900, 0⟩ = true := by
    unfold VectorMap.crossesAntimeridian
    rw [decide_eq_true_iff]
    norm_num [SCREEN_WIDTH]
  constructor
  · exact (splitPath_segment_counts ⟨0, 0⟩ [⟨1, 0⟩] ⟨0, 0⟩ []).1
      (List.Chain.cons hnc List.Chain.nil) (by norm_num)
  · exact (splitPath_segment_counts ⟨0, 0⟩ [⟨1, 0⟩] ⟨1900, 0⟩ [⟨1901, 0⟩]).2
      (List.Chain.cons hnc List.Chain.nil) (by norm_num) (by norm_num) hcr
      (List.Chain.cons hnc2 List.Chain.nil)

theorem splitAux_segments_wf (rest : List Point) :
    ∀ (prev : Point) (cur : List Point),
    cur.getLast? = some prev → List.Chain' noCross cur →
    (∀ seg ∈ VectorMap.splitAux prev cur rest,
        2 ≤ seg.length ∧ List.Chain' noCross seg) ∧
      (VectorMap.splitAux prev cur rest).flatten.Sublist (cur ++ rest) := by
  induction rest with
  | nil =>
    intro prev cur hlast hch
    rw [VectorMap.splitAux]
    by_cases hlen : 1 < cur.length
    · rw [if_pos hlen]
      refine ⟨?_, by simp⟩
      intro seg hseg
      rw [List.mem_singleton] at hseg
      subst hseg
      exact ⟨hlen, hch⟩
    · rw [if_neg hlen]
      exact ⟨by simp, List.nil_sublist _⟩
  | cons p rest ih =>
    intro prev cur hlast hch
    rw [VectorMap.splitAux]
    by_cases hcross : VectorMap.crossesAntimeridian prev p = true
    · rw [if_pos hcross]
      have ihh := ih p [p] (by simp) (List.chain'_singleton p)
      constructor
      · intro seg hseg
        rw [List.mem_append] at hseg
        rcases hseg with hseg | hseg
        · by_cases hlen : 1 < cur.length
          · rw [if_pos hlen, List.mem_singleton] at hseg
            subst hseg
            exact ⟨hlen, hch⟩
          · rw [if_neg hlen] at hseg
            exact absurd hseg (List.not_mem_nil seg)
        · exact ihh.1 seg hseg
      · rw [List.flatten_append]
        have h1 : (if 1 < cur.length then [cur] else []).flatten.Sublist cur := by
          by_cases hlen : 1 < cur.length
          · rw [if_pos hlen]
            simp
          · rw [if_neg hlen]
            simp
        exact List.Sublist.append h1 (by simpa using ihh.2)
    · rw [if_neg hcross]
      have hnc : noCross prev p := Bool.eq_false_iff.mpr hcross
      have hne : cur ≠ [] := by
        intro hcon
        rw [hcon] at hlast
        exact Option.noConfusion hlast
      have hlast' : (cur ++ [p]).getLast? = some p := List.getLast?_concat cur
      have hch' : List.Chain' noCross (cur ++ [p]) := by
        rw [List.chain'_append]
        refine ⟨hch, List.chain'_singleton p, ?_⟩
        intro x hx y hy
        rw [hlast, Option.mem_def, Option.some.injEq] at hx
        simp only [List.head?_cons, Option.mem_def, Option.some.injEq] at hy
        subst hx
        subst hy
        exact hnc
      have ihh := ih p (cur ++ [p]) hlast' hch'
      refine ⟨ihh.1, ?_⟩
      have h2 := ihh.2
      rwa [List.append_assoc, List.singleton_append] at h2

/-- **C9.** Invariants of the antimeridian split: every returned segment has
at least 2 points; within every returned segment no two consecutive points are
farther apart in screen x than `SCREEN_WIDTH/2`; the crossing comparison is
strict, so a pair exactly `SCREEN_WIDTH/2` apart does not cross; and no
stitching point is ever inserted — the concatenation of the output segments is
a sublist of the input polyline (on a crossing the new segment simply begins
at the current input point). -/
theorem splitPath_segments_invariants (pts : List Point) :
    (∀ seg ∈ VectorMap.splitAtAntimeridian pts,
        2 ≤ seg.length ∧
          List.Chain' (fun a b => |b.x - a.x| ≤ SCREEN_WIDTH * (1 / 2)) seg) ∧
      (VectorMap.splitAtAntimeridian pts).flatten.Sublist pts ∧
      ∀ p1 p2 : Point, |p2.x - p1.x| = SCREEN_WIDTH * (1 / 2) →
        VectorMap.crossesAntimeridian p1 p2 = false := by
  have hstrict : ∀ p1 p2 : Point, |p2.x - p1.x| = SCREEN_WIDTH * (1 / 2) →
      VectorMap.crossesAntimeridian p1 p2 = false := by
    intro p1 p2 h
    exact (noCross_iff p1 p2).mpr (le_of_eq h)
  cases pts with
  | nil =>
    refine ⟨?_, ?_, hstrict⟩
    · intro seg hseg
      exact absurd hseg (by rw [VectorMap.splitAtAntimeridian]; exact List.not_mem_nil seg)
    · rw [VectorMap.splitAtAntimeridian]
      exact List.nil_sublist _
  | cons p rest =>
    have hwf := splitAux_segments_wf rest p [p] (by simp) (List.chain'_singleton p)
    refine ⟨?_, ?_, hstrict⟩
    · intro seg hseg
      rw [VectorMap.splitAtAntimeridian] at hseg
      obtain ⟨hlen, hchain⟩ := hwf.1 seg hseg
      exact ⟨hlen, hchain.imp (fun a b h => (noCross_iff a b).mp h)⟩
    · rw [VectorMap.splitAtAntimeridian]
      have h2 := hwf.2
      rwa [List.singleton_append] at h2

/-- Witness for C9: a pair exactly `SCREEN_WIDTH/2 = 960` apart does not
cross. -/
theorem splitPath_segments_invariants_witness :
    VectorMap.crossesAntimeridian ⟨0, 0⟩ ⟨960, 0⟩ = false :=
  (splitPath_segments_invariants []).2.2 ⟨0, 0⟩ ⟨960, 0⟩ (by norm_num [SCREEN_WIDTH])

/-- `Missile::calculatePath` (VectorMap.cpp) and web `Missile.calculatePath`
(Missile.js): sample the geodesic between start and end at `samples` uniform
fractional arc-length steps `t = i/(samples-1)`.  `pos` is the geodesic
position function supplied by the external geodesic library (GeographicLib
`GeodesicLine::Position` in C++, turf `greatCircle` on the web), mapping an
arc length in `[0, s12]` to a coordinate, with `s12` the total arc length from
the inverse geodesic solution. -/
def calculatePath (pos : ℚ → LatLon) (s12 : ℚ) (samples : ℕ) : List LatLon :=
  (List.range samples).map fun i : ℕ => pos ((i : ℚ) / ((samples : ℚ) - 1) * s12)

/-- Equatorial geodesic from (0°,0°) to (0°,170°), parameterized by arc length
measured in degrees of longitude: `equatorPos 0` is the start and
`equatorPos 170` the end.  Used as a concrete geodesic position function. -/
def equatorPos (d : ℚ) : LatLon := ⟨0, d⟩

/-- **C5 counterexample.** With `numSamples = 1` the sampled path has exactly
one point, so its first and last element coincide; on the equatorial geodesic
from (0°,0°) to (0°,170°) the last element is therefore 170° of longitude away
from the end point, not within epsilon of it — the claim cannot hold "for all
numSamples". -/
theorem computePath_one_sample_counterexample :
    equatorPos 0 = ⟨0, 0⟩ ∧ equatorPos 170 = ⟨0, 170⟩ ∧
      calculatePath equatorPos 170 1 = [⟨0, 0⟩] ∧
      (calculatePath equatorPos 170 1).getLast? ≠ some ⟨0, 170⟩ := by
  have hpath : calculatePath equatorPos 170 1 = [⟨0, 0⟩] := by
    unfold calculatePath equatorPos
    norm_num
  refine ⟨rfl, rfl, hpath, ?_⟩
  rw [hpath]
  intro hcon
  simp only [List.getLast?_singleton, Option.some.injEq, LatLon.mk.injEq] at hcon
  exact absurd hcon.2 (by norm_num)

/-- **C5 (amended).** For every geodesic position function with
`pos 0 = start` and `pos s12 = end`, and every `numSamples ≥ 2`,
`calculatePath` returns exactly `numSamples` coordinates, the first is exactly
the start, the last exactly the end, and sample `i` sits at uniform fractional
arc length `t = i/(numSamples-1)` along the geodesic (the `numSamples = 1`
counterexample forces excluding sample counts below 2). -/
theorem computePath_endpoints (pos : ℚ → LatLon) (s12 : ℚ) (a b : LatLon)
    (samples : ℕ) (h2 : 2 ≤ samples) (h0 : pos 0 = a) (hs : pos s12 = b) :
    (calculatePath pos s12 samples).length = samples ∧
      (calculatePath pos s12 samples).head? = some a ∧
      (calculatePath pos s12 samples).getLast? = some b ∧
      ∀ i, i < samples → (calculatePath pos s12 samples)[i]? =
        some (pos ((i : ℚ) / ((samples : ℚ) - 1) * s12)) := by
  have hget : ∀ i, i < samples → (calculatePath pos s12 samples)[i]? =
      some (pos ((i : ℚ) / ((samples : ℚ) - 1) * s12)) := by
    intro i hi
    unfold calculatePath
    rw [List.getElem?_map, List.getElem?_range hi, Option.map_some']
  have hlen : (calculatePath pos s12 samples).length = samples := by
    unfold calculatePath
    rw [List.length_map, List.length_range]
  refine ⟨hlen, ?_, ?_, hget⟩
  · rw [List.head?_eq_getElem?, hget 0 (by omega)]
    norm_num [h0]
  · rw [List.getLast?_eq_getElem?, hlen, hget (samples - 1) (by omega)]
    have hcast : ((samples - 1 : ℕ) : ℚ) = (samples : ℚ) - 1 := by
      rw [Nat.cast_sub (by omega)]
      norm_num
    have hne : ((samples : ℚ) - 1) ≠ 0 := by
      have : (2 : ℚ) ≤ (samples : ℚ) := by exact_mod_cast h2
      intro hcon
      rw [sub_eq_zero] at hcon
      rw [hcon] at this
      norm_num at this
    rw [hcast, div_self hne, one_mul, hs]

/-- Witness for C5: the equatorial geodesic sampled at 3 points. -/
theorem computePath_endpoints_witness :
    (calculatePath equatorPos 170 3).length = 3 ∧
      (calculatePath equatorPos 170 3).head? = some ⟨0, 0⟩ ∧
      (calculatePath equatorPos 170 3).getLast? = some ⟨0, 170⟩ ∧
      ∀ i : ℕ, i < 3 → (calculatePath equatorPos 170 3)[i]? =
        some (equatorPos ((i : ℚ) / (((3 : ℕ) : ℚ) - 1) * 170)) :=
  computePath_endpoints equatorPos 170 ⟨0, 0⟩ ⟨0, 170⟩ 3 (by norm_num) rfl rfl

/-- GLSL `mix(a, b, t) = a*(1-t) + b*t`. -/
def glslMix (a b t : ℚ) : ℚ := a * (1 - t) + b * t

/-- One rgb channel of the composite pass `main` (composite.frag, identical
arithmetic in the C++ and web shaders):
`color = texture(screenTexture, uv); color += texture(bloomTexture, uv) * bloomIntensity;
color *= mix(vec4(1.0), scanline, 0.5); color *= vignette;
color.rgb += rand(uv + time) * noiseIntensity;
color.rgb *= 1.0 + sin(time*120.0)*flickerIntensity + sin(time*67.0)*flickerIntensity*0.5;`.
The four texture samples at this pixel, the noise value `rand(uv+time)` and
the two sine values are the inputs of the pixel arithmetic. -/
def compositePixel (scene bloom scanline vignette bloomI noiseI flickerI
    noiseVal sin120 sin67 : ℚ) : ℚ :=
  (((scene + bloom * bloomI) * glslMix 1 scanline (1 / 2)) * vignette
      + noiseVal * noiseI) *
    (1 + sin120 * flickerI + sin67 * flickerI * (1 / 2))

/-- The composite formula exactly as the claim states it: the scanline mask
applied as a pure multiplication. -/
def claimCompositePixel (scene bloom scanline vignette bloomI noiseI flickerI
    noiseVal sin120 sin67 : ℚ) : ℚ :=
  ((scene + bloom * bloomI) * scanline * vignette + noiseVal * noiseI) *
    (1 + sin120 * flickerI + (1 / 2) * sin67 * flickerI)

/-- **C8 counterexample.** On a scanline row (mask value 200/255 = 40/51),
with scene 1, bloom 0, vignette 1 and all intensities 0, the shader multiplies
by `mix(1, scanlineMask, 0.5) = 91/102`, not by the mask itself (`80/102`):
the scanline mask is not applied as a pure multiplication. -/
theorem composite_scanline_counterexample :
    compositePixel 1 0 (40 / 51) 1 0 0 0 0 0 0 ≠
      claimCompositePixel 1 0 (40 / 51) 1 0 0 0 0 0 0 := by
  norm_num [compositePixel, claimCompositePixel, glslMix]

/-- **C8 (amended).** The composite pass computes, per pixel and rgb channel,
`finalColor = (sceneColor + bloomColor*bloomIntensity) * mix(1, scanlineMask, 0.5)
* vignetteMask + noise(uv,time)*noiseIntensity`, all multiplied by the flicker
factor `1 + sin(t*120)*flickerIntensity + 0.5*sin(t*67)*flickerIntensity`:
exactly the claimed formula except that the scanline mask is first blended
halfway toward white (`mix(vec4(1.0), scanline, 0.5) = (1 + scanlineMask)/2`)
before the multiplication. -/
theorem composite_formula (scene bloom scanline vignette bloomI noiseI flickerI
    noiseVal sin120 sin67 : ℚ) :
    compositePixel scene bloom scanline vignette bloomI noiseI flickerI
        noiseVal sin120 sin67 =
      ((scene + bloom * bloomI) * ((1 + scanline) / 2) * vignette
          + noiseVal * noiseI) *
        (1 + sin120 * flickerI + (1 / 2) * sin67 * flickerI) := by
  unfold compositePixel glslMix
  ring
